import Mathlib

/-!
Verification model of the de-identification and record-linkage pipeline in
`src/backend/main.py`.  Python regular expressions are hand-compiled into
deterministic matching functions over `List Char`; the equivalences with the
backtracking semantics are justified pattern by pattern (all quantified
subexpressions are single character classes, and adjacent classes are
disjoint, so greedy matching needs no backtracking beyond the alternation
retries that are kept explicitly).  Strings are modelled at the ASCII level,
which covers every literal appearing in the source patterns.
-/

/-! ### Character classes (ASCII model of the Python regex classes) -/

def isDigitC (c : Char) : Bool := 48 ≤ c.toNat && c.toNat ≤ 57

def isUpperC (c : Char) : Bool := 65 ≤ c.toNat && c.toNat ≤ 90

def isLowerC (c : Char) : Bool := 97 ≤ c.toNat && c.toNat ≤ 122

def isAlphaC (c : Char) : Bool := isUpperC c || isLowerC c

/-- Python `\w` (ASCII part): letters, digits, underscore. -/
def isWordC (c : Char) : Bool := isAlphaC c || isDigitC c || c = '_'

/-- Python `\s` (ASCII part): the whitespace characters of `str.strip`. -/
def isSpaceC (c : Char) : Bool :=
  c = ' ' || c = '\t' || c = '\n' || c = '\r' || c = '\x0b' || c = '\x0c'

/-- The class `[A-Za-z'\-]` used for name tokens (39 is the apostrophe). -/
def isNameTailC (c : Char) : Bool := isAlphaC c || c.toNat = 39 || c = '-'

def toLowerC (c : Char) : Char :=
  if isUpperC c then Char.ofNat (c.toNat + 32) else c

/-- Case-insensitive character comparison (`re.IGNORECASE`, ASCII). -/
def eqCI (a b : Char) : Bool := toLowerC a = toLowerC b

/-! ### Generic scanning helpers -/

/-- Maximal run of characters satisfying `p`, and the rest. -/
def takeRun (p : Char → Bool) (l : List Char) : List Char × List Char :=
  (l.takeWhile p, l.dropWhile p)

/-- Case-insensitive literal: consume `pat`, return the rest. -/
def stripPrefixCI : List Char → List Char → Option (List Char)
  | [], l => some l
  | _ :: _, [] => none
  | p :: ps, c :: cs => if eqCI p c then stripPrefixCI ps cs else none

/-- Alternation `(?:a1|a2|...)k`: try each literal in order, each followed by
the continuation `k`, with retry on continuation failure (regex backtracking
over the alternation). -/
def tryAlts {α : Type} (alts : List (List Char)) (k : List Char → Option α)
    (l : List Char) : Option α :=
  alts.findSome? fun a => (stripPrefixCI a l).bind k

/-- `re.search` position loop: try the position-matcher `m` at every start
position from left to right; `m` receives the previous character so that
word boundaries `\b` can be decided. -/
def searchFrom {α : Type} (m : Option Char → List Char → Option α) :
    Option Char → List Char → Option α
  | prev, [] => m prev []
  | prev, c :: rest =>
    match m prev (c :: rest) with
    | some a => some a
    | none => searchFrom m (some c) rest

def searchText {α : Type} (m : Option Char → List Char → Option α)
    (s : List Char) : Option α :=
  searchFrom m none s

/-! ### Python string primitives -/

/-- `str.strip()` on the character list. -/
def pyStripList (l : List Char) : List Char :=
  ((l.dropWhile isSpaceC).reverse.dropWhile isSpaceC).reverse

/-- Python `s.strip()`. -/
def pyStrip (s : String) : String := String.mk (pyStripList s.data)

/-- Consume the literal `pat` (required non-empty) from the front of `l`. -/
def stripLitNE (pat l : List Char) : Option (List Char) :=
  match pat with
  | [] => none
  | _ :: _ => if pat.isPrefixOf l then some (l.drop pat.length) else none

theorem stripLitNE_length {pat l rest : List Char}
    (h : stripLitNE pat l = some rest) : rest.length < l.length := by
  match pat with
  | [] => simp [stripLitNE] at h
  | p :: ps =>
    simp only [stripLitNE] at h
    split at h
    · rename_i hpre
      cases h
      rw [List.isPrefixOf_iff_prefix] at hpre
      have hlen := hpre.length_le
      simp only [List.length_drop]
      simp only [List.length_cons] at hlen ⊢
      omega
    · exact absurd h (by simp)

/-- Replacement of every leftmost non-overlapping occurrence of `pat` by
`rep` — the semantics shared by Python `str.replace` and `re.sub` with an
escaped (literal) pattern.  After a match the scan resumes past the matched
characters; the first argument counts characters still to skip. -/
def replaceAux (pat rep : List Char) : Nat → List Char → List Char
  | _, [] => []
  | skip + 1, _ :: r => replaceAux pat rep skip r
  | 0, c :: r =>
    match stripLitNE pat (c :: r) with
    | some _ => rep ++ replaceAux pat rep (pat.length - 1) r
    | none => c :: replaceAux pat rep 0 r

def replaceList (pat rep l : List Char) : List Char := replaceAux pat rep 0 l

/-- Python `text.replace(pat, rep)` (and `re.sub(re.escape(pat), rep, text)`). -/
def pyReplace (s pat rep : String) : String :=
  String.mk (replaceList pat.data rep.data s.data)

/-- Does `pat` occur as a contiguous substring of `l`? -/
def containsList (pat : List Char) : List Char → Bool
  | [] => pat.isEmpty
  | c :: r => pat.isPrefixOf (c :: r) || containsList pat r

/-- Substring occurrence on strings. -/
def containsStr (s pat : String) : Bool := containsList pat.data s.data

theorem replaceList_of_not_contains {pat : List Char} (rep : List Char)
    {l : List Char} (h : containsList pat l = false) :
    replaceList pat rep l = l := by
  unfold replaceList
  induction l with
  | nil => rfl
  | cons c r ih =>
    simp only [containsList, Bool.or_eq_false_iff] at h
    rw [replaceAux]
    have hnot : stripLitNE pat (c :: r) = none := by
      match pat with
      | [] => rfl
      | p :: ps =>
        simp only [stripLitNE]
        rw [if_neg]
        intro hpre
        rw [h.1] at hpre
        exact absurd hpre (by decide)
    rw [hnot]
    exact congrArg (c :: ·) (ih h.2)

/-! ### Calendar dates (the validation `datetime` performs) -/

def isLeapYear (y : Nat) : Bool := (y % 4 = 0 && !(y % 100 = 0)) || y % 400 = 0

def daysInMonth (y m : Nat) : Nat :=
  if m = 1 || m = 3 || m = 5 || m = 7 || m = 8 || m = 10 || m = 12 then 31
  else if m = 4 || m = 6 || m = 9 || m = 11 then 30
  else if m = 2 then (if isLeapYear y then 29 else 28)
  else 0

/-- `datetime(y, m, d)`: validates year range (`MINYEAR = 1`, `MAXYEAR = 9999`),
month and day; raising `ValueError` is modelled by `none`. -/
def mkValidDate (y m d : Nat) : Option (Nat × Nat × Nat) :=
  if 1 ≤ y && y ≤ 9999 && 1 ≤ m && m ≤ 12 && 1 ≤ d && d ≤ daysInMonth y m then
    some (y, m, d)
  else none

def digitChar (n : Nat) : Char := Char.ofNat (48 + n)

def pad2 (n : Nat) : List Char := [digitChar (n / 10 % 10), digitChar (n % 10)]

def pad4 (n : Nat) : List Char :=
  [digitChar (n / 1000 % 10), digitChar (n / 100 % 10),
   digitChar (n / 10 % 10), digitChar (n % 10)]

/-- `date.isoformat()` for the year range `datetime` admits. -/
def isoFormat (y m d : Nat) : String :=
  String.mk (pad4 y ++ '-' :: pad2 m ++ '-' :: pad2 d)

/-! ### `strptime`-style numeric pieces -/

def digitVal (c : Char) : Nat := c.toNat - 48

def twoVal (a b : Char) : Nat := 10 * digitVal a + digitVal b

def fourVal (a b c d : Char) : Nat :=
  1000 * digitVal a + 100 * digitVal b + 10 * digitVal c + digitVal d

/-- `%Y` (exactly four digits); extra digits are left unconsumed. -/
def take4D : List Char → Option (Nat × List Char)
  | a :: b :: c :: d :: r =>
    if isDigitC a && isDigitC b && isDigitC c && isDigitC d then
      some (fourVal a b c d, r)
    else none
  | _ => none

/-- `%m` / `%d` (`\d{1,2}`) when followed by a literal separator or the end of
the string: the greedy quantifier with backtracking succeeds exactly when the
whole maximal digit run has length 1 or 2 and is consumed. -/
def takeRun12 (l : List Char) : Option (Nat × List Char) :=
  match takeRun isDigitC l with
  | ([a], r) => some (digitVal a, r)
  | ([a, b], r) => some (twoVal a b, r)
  | _ => none

def expectC (c : Char) : List Char → Option (List Char)
  | d :: r => if d = c then some r else none
  | [] => none

/-- Literal whitespace inside a `strptime` format matches `\s+`. -/
def expectWs (l : List Char) : Option (List Char) :=
  match takeRun isSpaceC l with
  | ([], _) => none
  | (_ :: _, r) => some r

/-! ### The eight formats of `_parse_date_string` (main.py lines 237-253) -/

/-- `%Y<sep>%m<sep>%d` followed by end of string. -/
def fmtYmdSep (sep : Char) (l : List Char) : Option (Nat × Nat × Nat) := do
  let (y, r1) ← take4D l
  let r2 ← expectC sep r1
  let (m, r3) ← takeRun12 r2
  let r4 ← expectC sep r3
  let (d, r5) ← takeRun12 r4
  if r5.isEmpty then mkValidDate y m d else none

/-- `%m<sep>%d<sep>%Y` followed by end of string. -/
def fmtMdySep (sep : Char) (l : List Char) : Option (Nat × Nat × Nat) := do
  let (m, r1) ← takeRun12 l
  let r2 ← expectC sep r1
  let (d, r3) ← takeRun12 r2
  let r4 ← expectC sep r3
  let (y, r5) ← take4D r4
  if r5.isEmpty then mkValidDate y m d else none

/-- `%d<sep>%m<sep>%Y` followed by end of string. -/
def fmtDmySep (sep : Char) (l : List Char) : Option (Nat × Nat × Nat) := do
  let (d, r1) ← takeRun12 l
  let r2 ← expectC sep r1
  let (m, r3) ← takeRun12 r2
  let r4 ← expectC sep r3
  let (y, r5) ← take4D r4
  if r5.isEmpty then mkValidDate y m d else none

def monthsFull : List (List Char) :=
  ["January".data, "February".data, "March".data, "April".data, "May".data,
   "June".data, "July".data, "August".data, "September".data, "October".data,
   "November".data, "December".data]

def monthsAbbr : List (List Char) :=
  ["Jan".data, "Feb".data, "Mar".data, "Apr".data, "May".data, "Jun".data,
   "Jul".data, "Aug".data, "Sep".data, "Oct".data, "Nov".data, "Dec".data]

/-- Month-name alternation of `strptime` (case-insensitive); none of the C
locale month names is a proper prefix of another within each list, so trying
them in order is the regex alternation. -/
def matchMonthAux : Nat → List (List Char) → List Char → Option (Nat × List Char)
  | _, [], _ => none
  | i, m :: ms, l =>
    match stripPrefixCI m l with
    | some r => some (i, r)
    | none => matchMonthAux (i + 1) ms l

/-- `%B %d, %Y` or `%b %d, %Y` followed by end of string. -/
def fmtMonthDY (months : List (List Char)) (l : List Char) :
    Option (Nat × Nat × Nat) := do
  let (mo, r1) ← matchMonthAux 1 months l
  let r2 ← expectWs r1
  let (d, r3) ← takeRun12 r2
  let r4 ← expectC ',' r3
  let r5 ← expectWs r4
  let (y, r6) ← take4D r5
  if r6.isEmpty then mkValidDate y mo d else none

/-- The format list of `_parse_date_string`, in source order. -/
def fmtList : List (List Char → Option (Nat × Nat × Nat)) :=
  [fmtYmdSep '-', fmtYmdSep '/', fmtMdySep '/', fmtDmySep '/',
   fmtMdySep '-', fmtDmySep '-', fmtMonthDY monthsFull, fmtMonthDY monthsAbbr]

/-- `_parse_date_string` (main.py lines 237-253): strip the candidate, try the
formats in order, return the first valid parse as an ISO string. -/
def parse_date_string (s : String) : Option String :=
  (fmtList.findSome? fun f => f (pyStripList s.data)).map fun t =>
    isoFormat t.1 t.2.1 t.2.2

example : parse_date_string "2024-03-05" = some "2024-03-05" := by decide
example : parse_date_string " 01/02/1990 " = some "1990-01-02" := by decide
example : parse_date_string "13/13/2020" = none := by decide
example : parse_date_string "March 5, 2024" = some "2024-03-05" := by decide
example : parse_date_string "Mar 5, 2024" = some "2024-03-05" := by decide
example : parse_date_string "Sept 5, 2024" = none := by decide
example : parse_date_string "29/02/2023" = none := by decide
example : parse_date_string "29/02/2024" = some "2024-02-29" := by decide

/-! ### Identity Extractor (main.py lines 142-151) -/

/-- The separator `\s*[:\-]?\s*` after a label.  Deterministic: the optional
`[:\-]` and the surrounding `\s*` runs draw from disjoint classes, and the
text that follows always starts with a letter or digit, so no backtracking
into this portion can ever succeed after the greedy pass failed. -/
def skipSep (l : List Char) : List Char :=
  let l1 := l.dropWhile isSpaceC
  let l2 :=
    match l1 with
    | c :: r => if c = ':' || c = '-' then r else l1
    | [] => l1
  l2.dropWhile isSpaceC

/-- A name token `[A-Za-z][A-Za-z'\-]+` (two or more characters), returning
the token and the rest. -/
def takeNameTok : List Char → Option (List Char × List Char)
  | [] => none
  | c :: r =>
    if isAlphaC c then
      match takeRun isNameTailC r with
      | ([], _) => none
      | (t, r') => some (c :: t, r')
    else none

/-- `\s+`, returning the matched whitespace and the rest. -/
def takeWs1 (l : List Char) : Option (List Char × List Char) :=
  match takeRun isSpaceC l with
  | ([], _) => none
  | (w, r) => some (w, r)

/-- The capture `([A-Za-z][A-Za-z'\-]+\s+[A-Za-z][A-Za-z'\-]+)`. -/
def matchNameCore (l : List Char) : Option (List Char) := do
  let (t1, r1) ← takeNameTok l
  let (ws, r2) ← takeWs1 r1
  let (t2, _) ← takeNameTok r2
  some (t1 ++ ws ++ t2)

/-- One position of the `_extract_name` regex
`(?:Patient Name|Name)\s*[:\-]?\s*(tok\s+tok)` (IGNORECASE). -/
def matchNameAt (_prev : Option Char) (l : List Char) : Option (List Char) :=
  tryAlts ["Patient Name".data, "Name".data]
    (fun r => matchNameCore (skipSep r)) l

/-- `_extract_name` (main.py lines 142-144): first match wins, the captured
group is stripped, no match gives `none`. -/
def extract_name (text : String) : Option String :=
  (searchText matchNameAt text.data).map fun g => String.mk (pyStripList g)

/-- DOB date alternative 1: `[A-Za-z]{3,9}\s+\d{1,2},\s+\d{4}` (also the
capture of the first `extract_lab_date` pattern).  `\d{4}` consumes exactly
four digits; trailing digits stay unconsumed. -/
def matchTextualDate (l : List Char) : Option (List Char) := do
  let (ltrs, r1) := takeRun isAlphaC l
  if 3 ≤ ltrs.length && ltrs.length ≤ 9 then
    let (ws1, r2) ← takeWs1 r1
    let (ds, r3) := takeRun isDigitC r2
    if ds.length = 1 || ds.length = 2 then
      let r4 ← expectC ',' r3
      let (ws2, r5) ← takeWs1 r4
      match r5 with
      | a :: b :: c :: d :: _ =>
        if isDigitC a && isDigitC b && isDigitC c && isDigitC d then
          some (ltrs ++ ws1 ++ ds ++ ',' :: ws2 ++ [a, b, c, d])
        else none
      | _ => none
    else none
  else none

/-- DOB date alternative 2: `\d{1,2}[\/\-]\d{1,2}[\/\-]\d{2,4}`.  The final
`\d{2,4}` takes at most four digits of the maximal run (at least two);
further digits stay unconsumed. -/
def matchNumericDob (l : List Char) : Option (List Char) := do
  let (d1, r1) := takeRun isDigitC l
  if d1.length = 1 || d1.length = 2 then
    match r1 with
    | s1 :: r2 =>
      if s1 = '/' || s1 = '-' then
        let (d2, r3) := takeRun isDigitC r2
        if d2.length = 1 || d2.length = 2 then
          match r3 with
          | s2 :: r4 =>
            if s2 = '/' || s2 = '-' then
              let d3 := r4.takeWhile isDigitC
              if 2 ≤ d3.length then
                some (d1 ++ s1 :: d2 ++ s2 :: d3.take 4)
              else none
            else none
          | [] => none
        else none
      else none
    | [] => none
  else none

/-- The date alternation of `_extract_dob`: the textual branch starts with a
letter and the numeric branch with a digit, so at any position at most one
branch can start — order is irrelevant and dispatch on the first character
is the alternation. -/
def matchDobDate (l : List Char) : Option (List Char) :=
  match l with
  | c :: _ =>
    if isAlphaC c then matchTextualDate l
    else if isDigitC c then matchNumericDob l
    else none
  | [] => none

/-- One position of the `_extract_dob` regex
`(?:DOB|Date of Birth)\s*[:\-]?\s*(date)` (IGNORECASE). -/
def matchDobAt (_prev : Option Char) (l : List Char) : Option (List Char) :=
  tryAlts ["DOB".data, "Date of Birth".data]
    (fun r => matchDobDate (skipSep r)) l

/-- The raw substring that the DOB regex of the Identity Extractor matched
(`m.group(1)` at main.py line 150). -/
def dobMatchedSubstring (text : String) : Option String :=
  (searchText matchDobAt text.data).map String.mk

/-- `_extract_dob` (main.py lines 147-151): the matched date is normalized
via `_parse_date_string`; if normalization fails the raw match is kept. -/
def extract_dob (text : String) : Option String :=
  (dobMatchedSubstring text).map fun raw => (parse_date_string raw).getD raw

example : extract_name "Patient Name: John Smith" = some "John Smith" := by decide
example : extract_name "Name: jane doe" = some "jane doe" := by decide
example : extract_name "Name - O'Neil Mc-Gee x" = some "O'Neil Mc-Gee" := by decide
example : extract_name "DOB: 01/02/1990" = none := by decide
example : extract_name "Name: X Y" = none := by decide
example : extract_dob "DOB: 01/02/1990" = some "1990-01-02" := by decide
example : dobMatchedSubstring "DOB: 01/02/1990" = some "01/02/1990" := by decide
example : extract_dob "DOB: 13/13/2020" = some "13/13/2020" := by decide
example : extract_dob "Date of Birth - March 5, 1990 x" = some "1990-03-05" := by decide
example : extract_dob "dob 3/4/99" = some "3/4/99" := by decide
example : extract_dob "nothing" = none := by decide

/-! ### Date Resolver: labelled and bare dates in text (main.py lines 256-272) -/

def labLabelsTextual : List (List Char) :=
  ["Report Date".data, "Collection Date".data, "Collected".data,
   "Sample Date".data, "Date of Service".data, "Report Generated".data,
   "Order Date".data, "Specimen Date".data, "Date".data]

def labLabelsNumeric : List (List Char) :=
  ["Report Date".data, "Collection Date".data, "Collected".data,
   "Sample Date".data, "Date of Service".data, "Order Date".data,
   "Specimen Date".data, "Date".data]

/-- Capture `(\d{4}[\/\-]\d{1,2}[\/\-]\d{1,2})`: the final `\d{1,2}` ends the
pattern, so it takes at most two digits and further digits stay unconsumed. -/
def matchYmdNumeric (l : List Char) : Option (List Char) :=
  match l with
  | a :: b :: c :: d :: r1 =>
    if isDigitC a && isDigitC b && isDigitC c && isDigitC d then
      match r1 with
      | s1 :: r2 =>
        if s1 = '/' || s1 = '-' then
          let (d2, r3) := takeRun isDigitC r2
          if d2.length = 1 || d2.length = 2 then
            match r3 with
            | s2 :: r4 =>
              if s2 = '/' || s2 = '-' then
                let d3 := r4.takeWhile isDigitC
                if 1 ≤ d3.length then
                  some ([a, b, c, d] ++ s1 :: d2 ++ s2 :: d3.take 2)
                else none
              else none
            | [] => none
          else none
        else none
      | [] => none
    else none
  | _ => none

/-- Capture `(\d{1,2}[\/\-]\d{1,2}[\/\-]\d{4})`: the final `\d{4}` takes
exactly four digits; further digits stay unconsumed. -/
def matchDmyNumeric (l : List Char) : Option (List Char) :=
  let (d1, r1) := takeRun isDigitC l
  if d1.length = 1 || d1.length = 2 then
    match r1 with
    | s1 :: r2 =>
      if s1 = '/' || s1 = '-' then
        let (d2, r3) := takeRun isDigitC r2
        if d2.length = 1 || d2.length = 2 then
          match r3 with
          | s2 :: r4 =>
            if s2 = '/' || s2 = '-' then
              match r4 with
              | a :: b :: c :: d :: _ =>
                if isDigitC a && isDigitC b && isDigitC c && isDigitC d then
                  some (d1 ++ s1 :: d2 ++ s2 :: [a, b, c, d])
                else none
              | _ => none
            else none
          | [] => none
        else none
      else none
    | [] => none
  else none

/-- `\b` on the left of a match: the matched text starts with a word
character, so the boundary holds exactly when there is no previous character
or it is not a word character. -/
def boundaryStart (prev : Option Char) : Bool :=
  match prev with
  | none => true
  | some c => !isWordC c

/-- `\b` on the right of a match ending in a word character. -/
def boundaryEnd (l : List Char) : Bool :=
  match l with
  | [] => true
  | c :: _ => !isWordC c

/-- Bare pattern `\b\d{4}[\/\-]\d{1,2}[\/\-]\d{1,2}\b` (whole match is the
candidate). -/
def matchBareYmdAt (prev : Option Char) (l : List Char) : Option (List Char) :=
  if boundaryStart prev then
    match l with
    | a :: b :: c :: d :: r1 =>
      if isDigitC a && isDigitC b && isDigitC c && isDigitC d then
        match r1 with
        | s1 :: r2 =>
          if s1 = '/' || s1 = '-' then
            let (d2, r3) := takeRun isDigitC r2
            if d2.length = 1 || d2.length = 2 then
              match r3 with
              | s2 :: r4 =>
                if s2 = '/' || s2 = '-' then
                  let (d3, r5) := takeRun isDigitC r4
                  if (d3.length = 1 || d3.length = 2) && boundaryEnd r5 then
                    some ([a, b, c, d] ++ s1 :: d2 ++ s2 :: d3)
                  else none
                else none
              | [] => none
            else none
          else none
        | [] => none
      else none
    | _ => none
  else none

/-- Bare pattern `\b\d{1,2}[\/\-]\d{1,2}[\/\-]\d{4}\b`. -/
def matchBareDmyAt (prev : Option Char) (l : List Char) : Option (List Char) :=
  if boundaryStart prev then
    let (d1, r1) := takeRun isDigitC l
    if d1.length = 1 || d1.length = 2 then
      match r1 with
      | s1 :: r2 =>
        if s1 = '/' || s1 = '-' then
          let (d2, r3) := takeRun isDigitC r2
          if d2.length = 1 || d2.length = 2 then
            match r3 with
            | s2 :: r4 =>
              if s2 = '/' || s2 = '-' then
                match r4 with
                | a :: b :: c :: d :: r5 =>
                  if isDigitC a && isDigitC b && isDigitC c && isDigitC d
                      && boundaryEnd r5 then
                    some (d1 ++ s1 :: d2 ++ s2 :: [a, b, c, d])
                  else none
                | _ => none
              else none
            | [] => none
          else none
        else none
      | [] => none
    else none
  else none

/-- Alternation of the month-abb pattern, keeping the original (case
preserved) matched characters for `m.group(0)`. -/
def tryAltsPre {α : Type} (alts : List (List Char))
    (k : List Char → List Char → Option α) (l : List Char) : Option α :=
  alts.findSome? fun a => (stripPrefixCI a l).bind (k (l.take a.length))

def monthAbbrevs6 : List (List Char) :=
  ["Jan".data, "Feb".data, "Mar".data, "Apr".data, "May".data, "Jun".data,
   "Jul".data, "Aug".data, "Sep".data, "Sept".data, "Oct".data, "Nov".data,
   "Dec".data]

/-- Bare pattern `\b(?:Jan|...|Dec)[a-z]*\s+\d{1,2},\s+\d{4}\b` (IGNORECASE,
so `[a-z]*` matches letters of either case). -/
def matchBareTextualAt (prev : Option Char) (l : List Char) :
    Option (List Char) :=
  if boundaryStart prev then
    tryAltsPre monthAbbrevs6
      (fun pre r => do
        let (tl, r1) := takeRun isAlphaC r
        let (ws1, r2) ← takeWs1 r1
        let (ds, r3) := takeRun isDigitC r2
        if ds.length = 1 || ds.length = 2 then
          let r4 ← expectC ',' r3
          let (ws2, r5) ← takeWs1 r4
          match r5 with
          | a :: b :: c :: d :: r6 =>
            if isDigitC a && isDigitC b && isDigitC c && isDigitC d
                && boundaryEnd r6 then
              some (pre ++ tl ++ ws1 ++ ds ++ ',' :: ws2 ++ [a, b, c, d])
            else none
          | _ => none
        else none) l
  else none

/-- The six patterns of `extract_lab_date`, in source order, each returning
the candidate substring (`group(1)` for the labelled ones, `group(0)` for the
bare ones). -/
def labPattern1 (l : List Char) : Option (List Char) :=
  searchText (fun _ r => tryAlts labLabelsTextual
    (fun r' => matchTextualDate (skipSep r')) r) l

def labPattern2 (l : List Char) : Option (List Char) :=
  searchText (fun _ r => tryAlts labLabelsNumeric
    (fun r' => matchYmdNumeric (skipSep r')) r) l

def labPattern3 (l : List Char) : Option (List Char) :=
  searchText (fun _ r => tryAlts labLabelsNumeric
    (fun r' => matchDmyNumeric (skipSep r')) r) l

def labPattern4 (l : List Char) : Option (List Char) := searchText matchBareYmdAt l

def labPattern5 (l : List Char) : Option (List Char) := searchText matchBareDmyAt l

def labPattern6 (l : List Char) : Option (List Char) :=
  searchText matchBareTextualAt l

def labPatternsLabeled : List (List Char → Option (List Char)) :=
  [labPattern1, labPattern2, labPattern3]

def labPatternsBare : List (List Char → Option (List Char)) :=
  [labPattern4, labPattern5, labPattern6]

/-- `extract_lab_date` (main.py lines 256-272): for each pattern in order,
take its first match; if the candidate normalizes, return it, otherwise move
to the next pattern. -/
def extract_lab_date (text : String) : Option String :=
  (labPatternsLabeled ++ labPatternsBare).findSome? fun p =>
    (p text.data).bind fun cand => parse_date_string (String.mk cand)

example : extract_lab_date "Collection Date: 2024-03-05" = some "2024-03-05" := by decide
example : extract_lab_date "bare 2020-01-01 Collection Date: 2024-03-05" = some "2024-03-05" := by decide
example : extract_lab_date "Report Generated: March 5, 2024" = some "2024-03-05" := by decide
example : extract_lab_date "seen 05/06/2024 ok" = some "2024-05-06" := by decide
example : extract_lab_date "x 2024-13-05 y" = none := by decide
example : extract_lab_date "no dates here" = none := by decide

/-! ### Date Resolver: filename inference (main.py lines 277-351) -/

/-- `os.path.basename` for POSIX paths: the part after the last `/`. -/
def basenameList (l : List Char) : List Char :=
  (l.reverse.takeWhile (fun c => !(c = '/'))).reverse

/-- The root part of `os.path.splitext`: cut at the last dot unless every
character before it is itself a dot (leading-dot rule of `genericpath`). -/
def splitextRoot (l : List Char) : List Char :=
  if l.contains '.' then
    let suffixLen := (l.reverse.takeWhile (fun c => !(c = '.'))).length
    let pre := l.take (l.length - 1 - suffixLen)
    if pre.any (fun c => !(c = '.')) then pre else l
  else l

/-- `re.sub(r"\s+", " ", name)`: every whitespace run becomes one space. -/
def collapseWsAux : Bool → List Char → List Char
  | _, [] => []
  | prevWs, c :: r =>
    if isSpaceC c then
      if prevWs then collapseWsAux true r else ' ' :: collapseWsAux true r
    else c :: collapseWsAux false r

def collapseWs (l : List Char) : List Char := collapseWsAux false l

/-- Two digits yielding their value (`int` of a two-character slice). -/
def take2DV : List Char → Option (Nat × List Char)
  | a :: b :: r => if isDigitC a && isDigitC b then some (twoVal a b, r) else none
  | _ => none

/-- The filename separator class `[._\- ]`. -/
def isFnSep (c : Char) : Bool := c = '.' || c = '_' || c = '-' || c = ' '

def optFnSep (l : List Char) : List Char :=
  match l with
  | c :: r => if isFnSep c then r else l
  | [] => l

def expectFnSep : List Char → Option (List Char)
  | c :: r => if isFnSep c then some r else none
  | [] => none

/-- `\b(\d{4})[._\- ]?(\d{2})[._\- ]?(\d{2})\b` at one position. -/
def matchT1 (prev : Option Char) (l : List Char) : Option (Nat × Nat × Nat) :=
  if boundaryStart prev then do
    let (y, r1) ← take4D l
    let (mo, r2) ← take2DV (optFnSep r1)
    let (d, r3) ← take2DV (optFnSep r2)
    if boundaryEnd r3 then some (y, mo, d) else none
  else none

/-- `\b(\d{2})[._\- ](\d{2})[._\- ](\d{2})\b` at one position. -/
def matchT2 (prev : Option Char) (l : List Char) : Option (Nat × Nat × Nat) :=
  if boundaryStart prev then do
    let (a, r1) ← take2DV l
    let r2 ← expectFnSep r1
    let (b, r3) ← take2DV r2
    let r4 ← expectFnSep r3
    let (c, r5) ← take2DV r4
    if boundaryEnd r5 then some (a, b, c) else none
  else none

/-- `\b(\d{2})(\d{2})(\d{2})\b` at one position. -/
def matchT3 (prev : Option Char) (l : List Char) : Option (Nat × Nat × Nat) :=
  if boundaryStart prev then do
    let (a, r1) ← take2DV l
    let (b, r2) ← take2DV r1
    let (c, r3) ← take2DV r2
    if boundaryEnd r3 then some (a, b, c) else none
  else none

/-- `re.findall(r"\d{6}", ...)`: leftmost non-overlapping six-digit runs,
already split into the three two-digit values the code computes.  After a
match the scan resumes past the six characters; the first argument counts
characters still to skip. -/
def findSixAux : Nat → List Char → List (Nat × Nat × Nat)
  | _, [] => []
  | skip + 1, _ :: r => findSixAux skip r
  | 0, a :: r =>
    match a :: r with
    | a :: b :: c :: d :: e :: f :: _ =>
      if isDigitC a && isDigitC b && isDigitC c && isDigitC d && isDigitC e
          && isDigitC f then
        (twoVal a b, twoVal c d, twoVal e f) :: findSixAux 5 r
      else findSixAux 0 r
    | _ => []

def findSixRuns (l : List Char) : List (Nat × Nat × Nat) := findSixAux 0 l

/-- `datetime(2000 + c, b, a)` — the DD-MM-YY reading, preferred. -/
def tryDDMMYY (a b c : Nat) : Option String :=
  (mkValidDate (2000 + c) b a).map fun t => isoFormat t.1 t.2.1 t.2.2

/-- `datetime(2000 + a, b, c)` — the YY-MM-DD reading, tried second. -/
def tryYYMMDD (a b c : Nat) : Option String :=
  (mkValidDate (2000 + a) b c).map fun t => isoFormat t.1 t.2.1 t.2.2

def fnTier1 (nn : List Char) : Option String :=
  (searchText matchT1 nn).bind fun t =>
    (mkValidDate t.1 t.2.1 t.2.2).map fun v => isoFormat v.1 v.2.1 v.2.2

def fnTier2 (nn : List Char) : Option String :=
  (searchText matchT2 nn).bind fun t =>
    tryDDMMYY t.1 t.2.1 t.2.2 <|> tryYYMMDD t.1 t.2.1 t.2.2

def fnTier3 (nn : List Char) : Option String :=
  (searchText matchT3 nn).bind fun t =>
    tryDDMMYY t.1 t.2.1 t.2.2 <|> tryYYMMDD t.1 t.2.1 t.2.2

def fnTier4 (nn : List Char) : Option String :=
  (findSixRuns nn).findSome? fun t =>
    tryDDMMYY t.1 t.2.1 t.2.2 <|> tryYYMMDD t.1 t.2.1 t.2.2

/-- The normalized filename stem the tiers scan. -/
def fnStem (filename : String) : List Char :=
  collapseWs (splitextRoot (basenameList filename.data))

/-- `extract_date_from_filename` (main.py lines 277-351): each tier takes
only the first regex match (tier 4 loops over all six-digit chunks); an
invalid calendar date falls through to the next reading or tier. -/
def extract_date_from_filename (filename : String) : Option String :=
  fnTier1 (fnStem filename) <|> fnTier2 (fnStem filename)
    <|> fnTier3 (fnStem filename) <|> fnTier4 (fnStem filename)

example : extract_date_from_filename "report-2024-03-05.pdf" = some "2024-03-05" := by decide
example : extract_date_from_filename "report 20240305.pdf" = some "2024-03-05" := by decide
example : extract_date_from_filename "report_2024-03-05.pdf" = none := by decide
example : extract_date_from_filename "report_20241345.pdf" = none := by decide
example : extract_date_from_filename "991231" = some "2099-12-31" := by decide
example : extract_date_from_filename "blood 10.11.12.pdf" = some "2012-11-10" := by decide
example : extract_date_from_filename "calc_991231_x.pdf" = some "2099-12-31" := by decide
example : extract_date_from_filename "nodate.pdf" = none := by decide

/-! ### SHA-256 and HMAC (`hashlib.sha256`, `hmac.new`) over byte lists -/

def w32 (n : Nat) : Nat := n % 4294967296

def rotr32 (n x : Nat) : Nat := w32 (x >>> n ||| x <<< (32 - n))

def not32 (x : Nat) : Nat := x ^^^ 4294967295

def shaCh (x y z : Nat) : Nat := (x &&& y) ^^^ (not32 x &&& z)

def shaMaj (x y z : Nat) : Nat := (x &&& y) ^^^ (x &&& z) ^^^ (y &&& z)

def bigSig0 (x : Nat) : Nat := rotr32 2 x ^^^ rotr32 13 x ^^^ rotr32 22 x

def bigSig1 (x : Nat) : Nat := rotr32 6 x ^^^ rotr32 11 x ^^^ rotr32 25 x

def smallSig0 (x : Nat) : Nat := rotr32 7 x ^^^ rotr32 18 x ^^^ (x >>> 3)

def smallSig1 (x : Nat) : Nat := rotr32 17 x ^^^ rotr32 19 x ^^^ (x >>> 10)

def shaK : List Nat :=
  [1116352408, 1899447441, 3049323471, 3921009573, 961987163,
   1508970993, 2453635748, 2870763221, 3624381080, 310598401,
   607225278, 1426881987, 1925078388, 2162078206, 2614888103,
   3248222580, 3835390401, 4022224774, 264347078, 604807628,
   770255983, 1249150122, 1555081692, 1996064986, 2554220882,
   2821834349, 2952996808, 3210313671, 3336571891, 3584528711,
   113926993, 338241895, 666307205, 773529912, 1294757372,
   1396182291, 1695183700, 1986661051, 2177026350, 2456956037,
   2730485921, 2820302411, 3259730800, 3345764771, 3516065817,
   3600352804, 4094571909, 275423344, 430227734, 506948616,
   659060556, 883997877, 958139571, 1322822218, 1537002063,
   1747873779, 1955562222, 2024104815, 2227730452, 2361852424,
   2428436474, 2756734187, 3204031479, 3329325298]

def shaH0 : List Nat :=
  [1779033703, 3144134277, 1013904242, 2773480762, 1359893119,
   2600822924, 528734635, 1541459225]

/-- Extend the 16 message-schedule words to 64. -/
def shaExtendAux : Nat → List Nat → List Nat
  | 0, w => w
  | n + 1, w =>
    let t := w.length
    let nw := w32 (smallSig1 (w.getD (t - 2) 0) + w.getD (t - 7) 0
      + smallSig0 (w.getD (t - 15) 0) + w.getD (t - 16) 0)
    shaExtendAux n (w ++ [nw])

def shaExtend (w : List Nat) : List Nat := shaExtendAux 48 w

/-- One compression round on the state `[a,b,c,d,e,f,g,h]`. -/
def shaRound (st : List Nat) (kw : Nat × Nat) : List Nat :=
  match st with
  | [a, b, c, d, e, f, g, h] =>
    let t1 := w32 (h + bigSig1 e + shaCh e f g + kw.1 + kw.2)
    let t2 := w32 (bigSig0 a + shaMaj a b c)
    [w32 (t1 + t2), a, b, c, w32 (d + t1), e, f, g]
  | _ => st

def shaCompressBlock (H : List Nat) (block : List Nat) : List Nat :=
  let w := shaExtend block
  let st := (shaK.zip w).foldl shaRound H
  (H.zip st).map fun p => w32 (p.1 + p.2)

/-- Big-endian bytes of `v`, `n` bytes wide. -/
def bytesBE : Nat → Nat → List Nat
  | 0, _ => []
  | n + 1, v => bytesBE n (v / 256) ++ [v % 256]

/-- SHA-256 padding: `0x80`, zeros to 56 mod 64, 8-byte big-endian bit length. -/
def shaPad (msg : List Nat) : List Nat :=
  let padZeros := (64 + 56 - (msg.length + 1) % 64) % 64
  msg ++ 128 :: List.replicate padZeros 0 ++ bytesBE 8 (8 * msg.length)

/-- Four consecutive bytes to a 32-bit big-endian word. -/
def toWords : List Nat → List Nat
  | a :: b :: c :: d :: r => (a * 16777216 + b * 65536 + c * 256 + d) :: toWords r
  | _ => []

/-- Group a word list into blocks of 16 (input length is a multiple of 16). -/
def group16Aux : List Nat → Nat → List Nat → List (List Nat)
  | acc, _, [] => if acc.isEmpty then [] else [acc.reverse]
  | _, 0, _ :: _ => []
  | acc, 1, w :: r => ((w :: acc).reverse) :: group16Aux [] 16 r
  | acc, k + 2, w :: r => group16Aux (w :: acc) (k + 1) r

def sha256Words (msg : List Nat) : List Nat :=
  (group16Aux [] 16 (toWords (shaPad msg))).foldl shaCompressBlock shaH0

def sha256Bytes (msg : List Nat) : List Nat :=
  (sha256Words msg).map (bytesBE 4) |>.flatten

def hexDigitChar (n : Nat) : Char :=
  if n < 10 then digitChar n else Char.ofNat (87 + n)

def byteHex (b : Nat) : List Char := [hexDigitChar (b / 16), hexDigitChar (b % 16)]

/-- `hmac.new(key, msg, hashlib.sha256)` over byte lists. -/
def hmacSha256Bytes (key msg : List Nat) : List Nat :=
  let k0 := if 64 < key.length then sha256Bytes key else key
  let kp := k0 ++ List.replicate (64 - k0.length) 0
  sha256Bytes ((kp.map fun b => b ^^^ 92)
    ++ sha256Bytes ((kp.map fun b => b ^^^ 54) ++ msg))

/-- Byte encoding of the ASCII strings the pipeline hashes. -/
def strBytes (s : String) : List Nat := s.data.map Char.toNat

/-- `.hexdigest()` of the HMAC. -/
def hmacSha256Hex (key msg : String) : String :=
  String.mk (((hmacSha256Bytes (strBytes key) (strBytes msg)).map byteHex).flatten)

/-! ### Token Deriver (main.py lines 154-158) -/

/-- `f"{name or ''}|{dob or ''}".strip()` — the composite key before the
falsiness test. -/
def compositeBase (name dob : Option String) : String :=
  pyStrip (name.getD "" ++ "|" ++ dob.getD "")

/-- `_stable_patient_token` (main.py lines 154-158).  The salt is the
configurable `PATIENT_TOKEN_SALT` and `freshUuid` stands for the
`str(uuid.uuid4())` value drawn when the composite key is falsy. -/
def stable_patient_token (salt : String) (name dob : Option String)
    (freshUuid : String) : String :=
  let base :=
    if compositeBase name dob = "" then freshUuid else compositeBase name dob
  "PT_" ++ (hmacSha256Hex salt base).take 24

/-! ### Redactor (main.py lines 161-209) -/

/-- `scrub_pii` (main.py lines 161-209).  `vaultNameToken` stands for the
outcome of the optional Skyflow path: `some t` is a non-empty vault token for
the name field, `none` covers the vault being disabled, failing, or
returning no token (every such case leaves the text as locally redacted). -/
def scrub_pii (text : String) (salt freshUuid : String)
    (vaultNameToken : Option String) : String × String :=
  let name := extract_name text
  let dob := extract_dob text
  let patient_token := stable_patient_token salt name dob freshUuid
  let scrubbed :=
    match name with
    | some n => pyReplace text n patient_token
    | none => text
  let scrubbed :=
    match dob with
    | some d => pyReplace scrubbed d "DOB_REDACTED"
    | none => scrubbed
  let scrubbed :=
    match name, vaultNameToken with
    | some n, some tname => pyReplace scrubbed n tname
    | _, _ => scrubbed
  (scrubbed, patient_token)

/-! ### History store and the analyze pipeline (main.py lines 353-475) -/

structure Biomarker where
  name : String
  value : Int
  unitStr : String
  flag : String
deriving DecidableEq

structure HistoryEntry where
  lab_date : String
  uploaded_at : String
  original_filename : String
  file_url : String
  biomarkers : List Biomarker
deriving DecidableEq

/-- The Redis connection: stored key-value pairs (JSON round-tripping of
entry lists is modelled as the identity) and reachability; an unreachable
store makes every `r.get`/`r.set` raise, which the call sites catch. -/
structure RedisState where
  data : List (String × List HistoryEntry)
  reachable : Bool
deriving DecidableEq

def lookupStore : List (String × List HistoryEntry) → String →
    Option (List HistoryEntry)
  | [], _ => none
  | (k, v) :: r, key => if k = key then some v else lookupStore r key

def setStore : List (String × List HistoryEntry) → String →
    List HistoryEntry → List (String × List HistoryEntry)
  | [], key, v => [(key, v)]
  | (k, w) :: r, key, v =>
    if k = key then (key, v) :: r else (k, w) :: setStore r key v

/-- `f"patient:{patient_token}:history"`. -/
def histKey (token : String) : String := "patient:" ++ token ++ ":history"

/-- The guarded read used by both `analyze` (lines 388-393) and
`get_history` (lines 469-474): missing key or unreachable store give `[]`. -/
def historyRead (st : RedisState) (key : String) : List HistoryEntry :=
  if st.reachable then (lookupStore st.data key).getD [] else []

/-- The guarded write of `analyze` (lines 437-440): unreachable store means
the attempt is logged and skipped. -/
def redisSet (st : RedisState) (key : String) (v : List HistoryEntry) :
    RedisState :=
  if st.reachable then { st with data := setStore st.data key v } else st

/-- The append step of `analyze` (lines 426-440): read the current list,
append the entry, write the whole list back. -/
def historyAppend (st : RedisState) (token : String) (entry : HistoryEntry) :
    RedisState :=
  redisSet st (histKey token) (historyRead st (histKey token) ++ [entry])

/-- `get_history` (main.py lines 466-475): `{"patient": token, "history": h}`. -/
def get_history (st : RedisState) (token : String) :
    String × List HistoryEntry :=
  (token, historyRead st (histKey token))

/-- `time.gmtime()` at the single processing instant of one request. -/
structure GmTime where
  year : Nat
  month : Nat
  day : Nat
  hour : Nat
  minute : Nat
  second : Nat
deriving DecidableEq

/-- `time.strftime("%Y-%m-%dT%H:%M:%SZ", time.gmtime())`. -/
def fmtUploadedAt (t : GmTime) : String :=
  String.mk (pad4 t.year ++ '-' :: pad2 t.month ++ '-' :: pad2 t.day
    ++ 'T' :: pad2 t.hour ++ ':' :: pad2 t.minute ++ ':' :: pad2 t.second
    ++ ['Z'])

/-- `time.strftime("%Y-%m-%d", time.gmtime())` — the processing date. -/
def fmtToday (t : GmTime) : String := isoFormat t.year t.month t.day

structure AnalyzeResponse where
  patient : String
  biomarkers : List Biomarker
  status : String
  original_filename : String
  uploaded_at : String
  lab_date : String
  file_url : String
deriving DecidableEq

/-- The core of the `analyze` endpoint (main.py lines 353-450) after the
external collaborators are factored out: `bio` is the biomarker list the
analysis collaborator produced (mock list on failure, research notes already
attached), `now` the processing instant, `stored` the unique stored filename.
The response is built and returned whether or not persistence succeeded. -/
def analyzeModel (raw_text original_filename stored : String) (now : GmTime)
    (salt freshUuid : String) (vaultTok : Option String)
    (bio : List Biomarker) (st : RedisState) :
    AnalyzeResponse × RedisState :=
  let labOpt := extract_lab_date raw_text
  let labOpt := match labOpt with
    | some d => some d
    | none => extract_date_from_filename original_filename
  let uploaded_at := fmtUploadedAt now
  let sp := scrub_pii raw_text salt freshUuid vaultTok
  let patient_token := sp.2
  let lab_date := labOpt.getD (fmtToday now)
  let entry : HistoryEntry :=
    { lab_date := lab_date, uploaded_at := uploaded_at,
      original_filename := original_filename,
      file_url := "/files/" ++ stored, biomarkers := bio }
  let st' := historyAppend st patient_token entry
  ({ patient := patient_token, biomarkers := bio,
     status := "Report Generated & Encrypted",
     original_filename := original_filename, uploaded_at := uploaded_at,
     lab_date := lab_date, file_url := "/files/" ++ stored }, st')

/-! ### Helper lemmas -/

theorem mem_dropWhile_of_not {p : Char → Bool} {c : Char} {l : List Char}
    (hc : c ∈ l) (hp : p c = false) : c ∈ l.dropWhile p := by
  induction l with
  | nil => cases hc
  | cons a r ih =>
    rw [List.dropWhile_cons]
    rcases List.mem_cons.mp hc with rfl | hr
    · rw [hp]
      simp
    · by_cases ha : p a
      · rw [if_pos ha]
        exact ih hr
      · rw [if_neg ha]
        exact List.mem_cons_of_mem _ hr

theorem pyStripList_ne_nil_of_mem {c : Char} {l : List Char} (hc : c ∈ l)
    (hp : isSpaceC c = false) : pyStripList l ≠ [] := by
  intro hnil
  unfold pyStripList at hnil
  rw [List.reverse_eq_nil_iff, List.dropWhile_eq_nil_iff] at hnil
  have h1 : c ∈ (l.dropWhile isSpaceC).reverse :=
    List.mem_reverse.mpr (mem_dropWhile_of_not hc hp)
  have := hnil c h1
  rw [hp] at this
  exact absurd this (by decide)

theorem lookup_setStore (d : List (String × List HistoryEntry)) (k : String)
    (v : List HistoryEntry) : lookupStore (setStore d k v) k = some v := by
  induction d with
  | nil => simp [setStore, lookupStore]
  | cons p r ih =>
    by_cases h : p.1 = k
    · simp [setStore, h, lookupStore]
    · simp only [setStore, lookupStore]
      rw [if_neg h, lookupStore, if_neg h]
      exact ih

theorem getLast?_append_singleton (l : List HistoryEntry) (a : HistoryEntry) :
    (l ++ [a]).getLast? = some a := by
  induction l with
  | nil => rfl
  | cons b r ih =>
    rw [List.cons_append, List.getLast?_cons]
    rw [ih]
    cases r <;> simp_all [List.getLast?_cons]

theorem pyReplace_of_not_contains (s pat rep : String)
    (h : containsStr s pat = false) : pyReplace s pat rep = s := by
  unfold pyReplace
  unfold containsStr at h
  rw [replaceList_of_not_contains _ h]

/-! ### Token facts shared by C2 and C4 -/

theorem pyStrip_pipe_ne (a b : String) : pyStrip (a ++ "|" ++ b) ≠ "" := by
  intro hmk
  have hdata : pyStripList (a ++ "|" ++ b : String).data = [] :=
    congrArg String.data hmk
  have hmem : '|' ∈ (a ++ "|" ++ b : String).data := by
    simp [String.data_append]
  exact pyStripList_ne_nil_of_mem hmem (by decide) hdata

theorem compositeBase_ne_empty (name dob : Option String) :
    compositeBase name dob ≠ "" :=
  pyStrip_pipe_ne (name.getD "") (dob.getD "")

/-- The composite key is never falsy, so the token is always the HMAC of the
composite key and the fresh random value is dead. -/
theorem stable_patient_token_eq (salt : String) (name dob : Option String)
    (u : String) :
    stable_patient_token salt name dob u
      = "PT_" ++ (hmacSha256Hex salt (compositeBase name dob)).take 24 := by
  unfold stable_patient_token
  rw [if_neg (compositeBase_ne_empty name dob)]

/-! ### Claim C2 -/

/-- C2 counterexample: with both identity fields absent the composite key is
the bare separator `"|"`, which survives `.strip()`, so the claimed random
fallback never fires — two derivations with both fields absent and distinct
fresh random values return the *same* token, refuting that they yield
different tokens and land in different history buckets. -/
theorem c2_counterexample :
    stable_patient_token "bio-hacker-salt" none none
        "11111111-1111-1111-1111-111111111111"
      = stable_patient_token "bio-hacker-salt" none none
        "22222222-2222-2222-2222-222222222222"
    ∧ ("11111111-1111-1111-1111-111111111111" : String)
      ≠ "22222222-2222-2222-2222-222222222222" := by
  constructor
  · rw [stable_patient_token_eq, stable_patient_token_eq]
  · decide

/-- C2 (amended): for IdentityFields with both name and date-of-birth absent
the composite key is `"|"` (non-empty after trimming), so the token deriver
never reaches the random fallback: its result is deterministic — any two
derivations with both fields absent yield the identical token, namely the
HMAC of `"|"`, and all unidentifiable reports land in the same history
bucket. -/
theorem c2_absent_fields_token_deterministic (salt u1 u2 : String) :
    stable_patient_token salt none none u1
      = stable_patient_token salt none none u2
    ∧ stable_patient_token salt none none u1
      = "PT_" ++ (hmacSha256Hex salt "|").take 24 := by
  rw [stable_patient_token_eq, stable_patient_token_eq]
  exact ⟨rfl, rfl⟩

/-! ### Claim C4 -/

/-- C4: the Token Deriver is deterministic for every non-empty (name, dob)
pair — the composite key contains the separator and is never empty, so the
random fresh value is unused and two calls with the same pair and the same
salt return the identical token string. -/
theorem c4_token_deterministic (salt name dob u1 u2 : String)
    (hn : name ≠ "") (hd : dob ≠ "") :
    stable_patient_token salt (some name) (some dob) u1
      = stable_patient_token salt (some name) (some dob) u2 := by
  rw [stable_patient_token_eq, stable_patient_token_eq]

/-- Witness for C4 at a concrete non-empty pair. -/
theorem c4_token_deterministic_witness :
    ("John Smith" : String) ≠ "" ∧ ("1990-01-02" : String) ≠ ""
    ∧ stable_patient_token "bio-hacker-salt" (some "John Smith")
        (some "1990-01-02") "u-one"
      = stable_patient_token "bio-hacker-salt" (some "John Smith")
        (some "1990-01-02") "u-two" :=
  ⟨by decide, by decide,
    c4_token_deterministic "bio-hacker-salt" "John Smith" "1990-01-02"
      "u-one" "u-two" (by decide) (by decide)⟩

/-! ### Claim C7 -/

/-- Sample values for witnesses. -/
def entry0 : HistoryEntry :=
  ⟨"2024-03-05", "2024-03-05T10:00:00Z", "r.pdf", "/files/s.pdf", []⟩

def gm0 : GmTime := ⟨2024, 1, 2, 3, 4, 5⟩

def storeEmptyUp : RedisState := ⟨[], true⟩

def storeEmptyDown : RedisState := ⟨[], false⟩

/-- C7: with the backing store reachable, `append(token, entry)` followed by
`readAll(token)` yields a sequence whose last element is the appended entry
and whose length grew by one; `readAll` on a token with no stored history
returns the empty sequence. -/
theorem c7_append_then_readAll (st : RedisState) (tok : String)
    (e : HistoryEntry) (h : st.reachable = true) :
    (get_history (historyAppend st tok e) tok).2.getLast? = some e
    ∧ (get_history (historyAppend st tok e) tok).2.length
        = (get_history st tok).2.length + 1
    ∧ (lookupStore st.data (histKey tok) = none → (get_history st tok).2 = []) := by
  unfold get_history historyAppend redisSet historyRead
  rw [h]
  simp only [if_true]
  refine ⟨?_, ?_, ?_⟩
  · rw [lookup_setStore]
    simp only [Option.getD_some]
    exact getLast?_append_singleton _ e
  · rw [lookup_setStore]
    simp
  · intro hmiss
    rw [hmiss]
    rfl

/-- Witness for C7 on the empty reachable store. -/
theorem c7_append_then_readAll_witness :
    storeEmptyUp.reachable = true
    ∧ (get_history (historyAppend storeEmptyUp "PT_x" entry0) "PT_x").2.getLast?
        = some entry0 :=
  ⟨rfl, (c7_append_then_readAll storeEmptyUp "PT_x" entry0 rfl).1⟩

/-! ### Claim C8 -/

/-- C8: `readAll` never raises — it returns the empty sequence both on a
missing key and when the backing store is unreachable; and when the append
fails because the store is unreachable, the write is skipped (state
unchanged) while the caller still receives the response carrying the
already-computed analysis result. -/
theorem c8_read_total_append_absorbed (st : RedisState) (tok : String)
    (raw fn stored : String) (now : GmTime) (salt u : String)
    (v : Option String) (bio : List Biomarker) :
    (st.reachable = false → (get_history st tok).2 = [])
    ∧ (lookupStore st.data (histKey tok) = none → (get_history st tok).2 = [])
    ∧ (st.reachable = false →
        (analyzeModel raw fn stored now salt u v bio st).1.biomarkers = bio
        ∧ (analyzeModel raw fn stored now salt u v bio st).2 = st) := by
  refine ⟨?_, ?_, ?_⟩
  · intro h
    unfold get_history historyRead
    rw [h]
    rfl
  · intro hmiss
    unfold get_history historyRead
    rw [hmiss]
    cases hr : st.reachable <;> rfl
  · intro h
    constructor
    · rfl
    · show historyAppend st _ _ = st
      unfold historyAppend redisSet
      rw [h]
      rfl

/-- Witness for C8 on an unreachable store with an unknown token. -/
theorem c8_read_total_append_absorbed_witness :
    (get_history storeEmptyDown "PT_a").2 = []
    ∧ (analyzeModel "" "f.pdf" "s.pdf" gm0 "salt" "u" none []
        storeEmptyDown).2 = storeEmptyDown :=
  ⟨(c8_read_total_append_absorbed storeEmptyDown "PT_a"
      "" "f.pdf" "s.pdf" gm0 "salt" "u" none []).1 rfl,
   ((c8_read_total_append_absorbed storeEmptyDown "PT_a"
      "" "f.pdf" "s.pdf" gm0 "salt" "u" none []).2.2 rfl).2⟩

/-! ### Claim C1 -/

/-- C1 (code bug): the Identity Extractor matches the raw substring
`"01/02/1990"` but `_extract_dob` hands back its normalized form
`"1990-01-02"`, and `scrub_pii` replaces only that normalized form — so the
sanitized text still contains the verbatim matched date-of-birth substring,
violating the redaction output invariant. -/
theorem c1_dob_redaction_leak :
    dobMatchedSubstring "DOB: 01/02/1990" = some "01/02/1990"
    ∧ extract_dob "DOB: 01/02/1990" = some "1990-01-02"
    ∧ containsStr (scrub_pii "DOB: 01/02/1990" "bio-hacker-salt" "u" none).1
        "01/02/1990" = true
    ∧ (scrub_pii "DOB: 01/02/1990" "bio-hacker-salt" "u" none).1
        = "DOB: 01/02/1990" :=
  ⟨by decide, by decide, by decide, by decide⟩

/-! ### Claim C9 -/

/-- C9 counterexample: redaction is not idempotent.  This text carries two
labelled DOB fields neither of which normalizes; the first pass redacts only
the first match verbatim, and a second pass over the sanitized output finds
and redacts the second one, so the second application changes the text. -/
theorem c9_counterexample :
    (scrub_pii (scrub_pii "DOB: 13/13/2020 DOB: 14/14/2021"
        "bio-hacker-salt" "u" none).1 "bio-hacker-salt" "u" none).1
      ≠ (scrub_pii "DOB: 13/13/2020 DOB: 14/14/2021"
        "bio-hacker-salt" "u" none).1 := by
  decide

/-- C9 (amended): redaction is not idempotent for every input text (see the
counterexample); a second application of the redactor does leave a text
unchanged whenever the Identity Extractor finds no name in it and any
date-of-birth it extracts from it does not occur in it verbatim — a
sufficient condition covering, for instance, sanitized outputs whose
identity fields were fully redacted. -/
theorem c9_second_pass_fixed (s salt u : String) (v : Option String)
    (hn : extract_name s = none)
    (hd : ∀ d, extract_dob s = some d → containsStr s d = false) :
    (scrub_pii s salt u v).1 = s := by
  unfold scrub_pii
  rw [hn]
  cases hdob : extract_dob s with
  | none => rfl
  | some d =>
    simp only
    exact pyReplace_of_not_contains s d "DOB_REDACTED" (hd d hdob)

/-- Witness for C9 (amended) at a concrete text. -/
theorem c9_second_pass_fixed_witness :
    extract_name "DOB: 01/02/1990" = none
    ∧ (scrub_pii "DOB: 01/02/1990" "bio-hacker-salt" "u" none).1
        = "DOB: 01/02/1990" := by
  refine ⟨by decide, ?_⟩
  exact c9_second_pass_fixed "DOB: 01/02/1990" "bio-hacker-salt" "u" none
    (by decide)
    (fun d hd => by
      rw [show extract_dob "DOB: 01/02/1990" = some "1990-01-02" from by decide]
        at hd
      cases hd
      decide)

/-! ### Claim C3 -/

/-- The labelled tier of `extract_lab_date`: patterns 1-3. -/
def labeledLabDate (text : String) : Option String :=
  labPatternsLabeled.findSome? fun p =>
    (p text.data).bind fun cand => parse_date_string (String.mk cand)

/-- The bare tier of `extract_lab_date`: patterns 4-6. -/
def bareLabDate (text : String) : Option String :=
  labPatternsBare.findSome? fun p =>
    (p text.data).bind fun cand => parse_date_string (String.mk cand)

/-- The time-of-day part of the `uploaded_at` timestamp. -/
def timeOfDayPart (t : GmTime) : String :=
  String.mk ('T' :: pad2 t.hour ++ ':' :: pad2 t.minute ++ ':' :: pad2 t.second
    ++ ['Z'])

theorem fmtUploadedAt_eq (t : GmTime) :
    fmtUploadedAt t = fmtToday t ++ timeOfDayPart t := by
  apply String.ext
  show _ = (String.mk _ ++ String.mk _).data
  rw [String.data_append]
  unfold fmtUploadedAt
  simp [isoFormat]

/-- C3: the Date Resolver resolves exactly one LabDate by strict fallback
priority — the labelled patterns are tried before any bare pattern; a date
found in the text wins; otherwise a date inferred from the filename; if both
fail, the LabDate equals the processing date, which is the date portion of
the upload timestamp. -/
theorem c3_date_resolution (raw fn stored : String) (now : GmTime)
    (salt u : String) (v : Option String) (bio : List Biomarker)
    (st : RedisState) :
    (extract_lab_date raw = (labeledLabDate raw).or (bareLabDate raw))
    ∧ (∀ d, extract_lab_date raw = some d →
        (analyzeModel raw fn stored now salt u v bio st).1.lab_date = d)
    ∧ (extract_lab_date raw = none →
        ∀ d, extract_date_from_filename fn = some d →
          (analyzeModel raw fn stored now salt u v bio st).1.lab_date = d)
    ∧ (extract_lab_date raw = none → extract_date_from_filename fn = none →
        (analyzeModel raw fn stored now salt u v bio st).1.lab_date
          = fmtToday now
        ∧ (analyzeModel raw fn stored now salt u v bio st).1.uploaded_at
          = fmtToday now ++ timeOfDayPart now) := by
  refine ⟨?_, ?_, ?_, ?_⟩
  · unfold extract_lab_date labeledLabDate bareLabDate
    rw [show labPatternsLabeled ++ labPatternsBare
        = labPatternsLabeled ++ labPatternsBare from rfl]
    exact List.findSome?_append
  · intro d h
    unfold analyzeModel
    rw [h]
    rfl
  · intro h d hfn
    unfold analyzeModel
    rw [h, hfn]
    rfl
  · intro h hfn
    constructor
    · unfold analyzeModel
      rw [h, hfn]
      rfl
    · show fmtUploadedAt now = _
      exact fmtUploadedAt_eq now

/-- Witness for C3: a labelled date beats a bare date appearing earlier in
the text; with no date in the text the filename date is used; with neither,
the processing date is used. -/
theorem c3_date_resolution_witness :
    (analyzeModel "bare 2020-01-01 Collection Date: 2024-03-05" "f.pdf"
        "s.pdf" gm0 "salt" "u" none [] storeEmptyUp).1.lab_date = "2024-03-05"
    ∧ (analyzeModel "no dates here" "report-2024-03-05.pdf" "s.pdf" gm0
        "salt" "u" none [] storeEmptyUp).1.lab_date = "2024-03-05"
    ∧ (analyzeModel "no dates here" "nodate.pdf" "s.pdf" gm0 "salt" "u" none
        [] storeEmptyUp).1.lab_date = fmtToday gm0 :=
  ⟨(c3_date_resolution "bare 2020-01-01 Collection Date: 2024-03-05" "f.pdf"
      "s.pdf" gm0 "salt" "u" none [] storeEmptyUp).2.1 "2024-03-05"
      (by decide),
   (c3_date_resolution "no dates here" "report-2024-03-05.pdf" "s.pdf" gm0
      "salt" "u" none [] storeEmptyUp).2.2.1 (by decide) "2024-03-05"
      (by decide),
   ((c3_date_resolution "no dates here" "nodate.pdf" "s.pdf" gm0 "salt" "u"
      none [] storeEmptyUp).2.2.2 (by decide) (by decide)).1⟩

/-! ### Claim C6 -/

/-- First-success semantics of `findSome?` with the index of the succeeding
element and failure of all earlier ones. -/
theorem findSome?_eq_some_index {α β : Type} (f : α → Option β) (l : List α)
    (b : β) (h : l.findSome? f = some b) :
    ∃ i, ∃ hi : i < l.length,
      f (l.get ⟨i, hi⟩) = some b
      ∧ ∀ j, ∀ hj : j < i, f (l.get ⟨j, Nat.lt_trans hj hi⟩) = none := by
  induction l with
  | nil => simp [List.findSome?] at h
  | cons a r ih =>
    rw [List.findSome?_cons] at h
    cases ha : f a with
    | some c =>
      rw [ha] at h
      cases h
      exact ⟨0, Nat.succ_pos _, ha, fun j hj => absurd hj (Nat.not_lt_zero j)⟩
    | none =>
      rw [ha] at h
      obtain ⟨i, hi, hf, hearlier⟩ := ih h
      refine ⟨i + 1, Nat.succ_lt_succ hi, hf, ?_⟩
      intro j hj
      cases j with
      | zero => exact ha
      | succ j' => exact hearlier j' (Nat.lt_of_succ_lt_succ hj)

theorem mkValidDate_bounds {y m d : Nat} {t : Nat × Nat × Nat}
    (h : mkValidDate y m d = some t) :
    t = (y, m, d) ∧ 1 ≤ y ∧ y ≤ 9999 ∧ 1 ≤ m ∧ m ≤ 12 ∧ 1 ≤ d
      ∧ d ≤ daysInMonth y m := by
  unfold mkValidDate at h
  split at h
  · rename_i hcond
    cases h
    simp only [Bool.and_eq_true, decide_eq_true_eq] at hcond
    exact ⟨rfl, by omega, by omega, by omega, by omega, by omega, by omega⟩
  · exact absurd h (by simp)

theorem fmtYmdSep_valid (sep : Char) (l : List Char) {t : Nat × Nat × Nat}
    (h : fmtYmdSep sep l = some t) :
    1 ≤ t.1 ∧ t.1 ≤ 9999 ∧ 1 ≤ t.2.1 ∧ t.2.1 ≤ 12 ∧ 1 ≤ t.2.2
      ∧ t.2.2 ≤ daysInMonth t.1 t.2.1 := by
  simp only [fmtYmdSep, bind, Option.bind_eq_some] at h
  obtain ⟨⟨y, r1⟩, _, ⟨r2, _, ⟨⟨m, r3⟩, _, ⟨r4, _, ⟨⟨d, r5⟩, _, h⟩⟩⟩⟩⟩ := h
  split at h
  · obtain ⟨rfl, hb⟩ := mkValidDate_bounds h
    exact hb
  · exact absurd h (by simp)

theorem fmtMdySep_valid (sep : Char) (l : List Char) {t : Nat × Nat × Nat}
    (h : fmtMdySep sep l = some t) :
    1 ≤ t.1 ∧ t.1 ≤ 9999 ∧ 1 ≤ t.2.1 ∧ t.2.1 ≤ 12 ∧ 1 ≤ t.2.2
      ∧ t.2.2 ≤ daysInMonth t.1 t.2.1 := by
  simp only [fmtMdySep, bind, Option.bind_eq_some] at h
  obtain ⟨⟨m, r1⟩, _, ⟨r2, _, ⟨⟨d, r3⟩, _, ⟨r4, _, ⟨⟨y, r5⟩, _, h⟩⟩⟩⟩⟩ := h
  split at h
  · obtain ⟨rfl, hb⟩ := mkValidDate_bounds h
    exact hb
  · exact absurd h (by simp)

theorem fmtDmySep_valid (sep : Char) (l : List Char) {t : Nat × Nat × Nat}
    (h : fmtDmySep sep l = some t) :
    1 ≤ t.1 ∧ t.1 ≤ 9999 ∧ 1 ≤ t.2.1 ∧ t.2.1 ≤ 12 ∧ 1 ≤ t.2.2
      ∧ t.2.2 ≤ daysInMonth t.1 t.2.1 := by
  simp only [fmtDmySep, bind, Option.bind_eq_some] at h
  obtain ⟨⟨d, r1⟩, _, ⟨r2, _, ⟨⟨m, r3⟩, _, ⟨r4, _, ⟨⟨y, r5⟩, _, h⟩⟩⟩⟩⟩ := h
  split at h
  · obtain ⟨rfl, hb⟩ := mkValidDate_bounds h
    exact hb
  · exact absurd h (by simp)

theorem fmtMonthDY_valid (months : List (List Char)) (l : List Char)
    {t : Nat × Nat × Nat} (h : fmtMonthDY months l = some t) :
    1 ≤ t.1 ∧ t.1 ≤ 9999 ∧ 1 ≤ t.2.1 ∧ t.2.1 ≤ 12 ∧ 1 ≤ t.2.2
      ∧ t.2.2 ≤ daysInMonth t.1 t.2.1 := by
  simp only [fmtMonthDY, bind, Option.bind_eq_some] at h
  obtain ⟨⟨mo, r1⟩, _, ⟨r2, _, ⟨⟨d, r3⟩, _, ⟨r4, _, ⟨r5, _, ⟨⟨y, r6⟩, _, h⟩⟩⟩⟩⟩⟩ := h
  split at h
  · obtain ⟨rfl, hb⟩ := mkValidDate_bounds h
    exact hb
  · exact absurd h (by simp)

/-- C6: `_parse_date_string` tries the fixed list of eight formats in source
order and returns the first valid parse; every successful format parse is a
valid calendar date (so month 13 and the like are rejected); and the
filename `report_20241345.pdf` does not resolve at all — in particular not
via the 8-digit candidate. -/
theorem c6_format_order_and_validity :
    (∀ s out, parse_date_string s = some out →
      ∃ i, ∃ hi : i < fmtList.length, ∃ t,
        fmtList.get ⟨i, hi⟩ (pyStripList s.data) = some t
        ∧ out = isoFormat t.1 t.2.1 t.2.2
        ∧ ∀ j, ∀ hj : j < i,
            fmtList.get ⟨j, Nat.lt_trans hj hi⟩ (pyStripList s.data) = none)
    ∧ (∀ f ∈ fmtList, ∀ l t, f l = some t →
        1 ≤ t.1 ∧ t.1 ≤ 9999 ∧ 1 ≤ t.2.1 ∧ t.2.1 ≤ 12 ∧ 1 ≤ t.2.2
          ∧ t.2.2 ≤ daysInMonth t.1 t.2.1)
    ∧ extract_date_from_filename "report_20241345.pdf" = none := by
  refine ⟨?_, ?_, by decide⟩
  · intro s out h
    unfold parse_date_string at h
    rw [Option.map_eq_some'] at h
    obtain ⟨t, hfind, rfl⟩ := h
    obtain ⟨i, hi, hf, hearlier⟩ := findSome?_eq_some_index _ _ _ hfind
    exact ⟨i, hi, t, hf, rfl, hearlier⟩
  · intro f hf l t h
    simp only [fmtList, List.mem_cons, List.not_mem_nil, or_false] at hf
    rcases hf with rfl | rfl | rfl | rfl | rfl | rfl | rfl | rfl
    · exact fmtYmdSep_valid _ _ h
    · exact fmtYmdSep_valid _ _ h
    · exact fmtMdySep_valid _ _ h
    · exact fmtDmySep_valid _ _ h
    · exact fmtMdySep_valid _ _ h
    · exact fmtDmySep_valid _ _ h
    · exact fmtMonthDY_valid _ _ h
    · exact fmtMonthDY_valid _ _ h

/-- Witness for C6: `"13/13/2020"` is refused by every format, while
`"01/02/1990"` succeeds with the third format (`%m/%d/%Y`) after the first
two fail, and the parse is a valid calendar date. -/
theorem c6_format_order_and_validity_witness :
    parse_date_string "13/13/2020" = none
    ∧ (∃ i, ∃ hi : i < fmtList.length, ∃ t,
        fmtList.get ⟨i, hi⟩ (pyStripList ("01/02/1990" : String).data) = some t
        ∧ "1990-01-02" = isoFormat t.1 t.2.1 t.2.2
        ∧ ∀ j, ∀ hj : j < i,
            fmtList.get ⟨j, Nat.lt_trans hj hi⟩
              (pyStripList ("01/02/1990" : String).data) = none)
    ∧ (1 ≤ (1990, 1, 2).1 ∧ (1990, 1, 2).1 ≤ 9999 ∧ 1 ≤ (1990, 1, 2).2.1
        ∧ (1990, 1, 2).2.1 ≤ 12 ∧ 1 ≤ (1990, 1, 2).2.2
        ∧ (1990, 1, 2).2.2 ≤ daysInMonth (1990, 1, 2).1 (1990, 1, 2).2.1) :=
  ⟨by decide,
   c6_format_order_and_validity.1 "01/02/1990" "1990-01-02" (by decide),
   c6_format_order_and_validity.2.1 (fmtMdySep '/') (by simp [fmtList])
     (pyStripList ("01/02/1990" : String).data) (1990, 1, 2) (by decide)⟩

/-! ### Claim C10 -/

theorem digitVal_le {c : Char} (h : isDigitC c = true) : digitVal c ≤ 9 := by
  simp only [isDigitC, Bool.and_eq_true, decide_eq_true_eq] at h
  unfold digitVal
  omega

theorem twoVal_le {a b : Char} (ha : isDigitC a = true) (hb : isDigitC b = true) :
    twoVal a b ≤ 99 := by
  have h1 := digitVal_le ha
  have h2 := digitVal_le hb
  unfold twoVal
  omega

theorem take2DV_le {l : List Char} {n : Nat} {r : List Char}
    (h : take2DV l = some (n, r)) : n ≤ 99 := by
  match l with
  | [] => simp [take2DV] at h
  | [a] => simp [take2DV] at h
  | a :: b :: r' =>
    simp only [take2DV] at h
    split at h
    · rename_i hd
      cases h
      simp only [Bool.and_eq_true] at hd
      exact twoVal_le hd.1 hd.2
    · exact absurd h (by simp)

/-- Any value produced by the position matcher anywhere in the search has the
property the matcher guarantees. -/
theorem searchFrom_pres {α : Type} {P : α → Prop}
    (m : Option Char → List Char → Option α)
    (hm : ∀ prev l a, m prev l = some a → P a) :
    ∀ prev l a, searchFrom m prev l = some a → P a := by
  intro prev l
  induction l generalizing prev with
  | nil =>
    intro a h
    exact hm _ _ _ h
  | cons c r ih =>
    intro a h
    rw [searchFrom] at h
    cases hm' : m prev (c :: r) with
    | some b =>
      rw [hm'] at h
      cases h
      exact hm _ _ _ hm'
    | none =>
      rw [hm'] at h
      exact ih _ _ h

theorem matchT2_bounds (prev : Option Char) (l : List Char)
    {t : Nat × Nat × Nat} (h : matchT2 prev l = some t) :
    t.1 ≤ 99 ∧ t.2.2 ≤ 99 := by
  unfold matchT2 at h
  split at h
  · simp only [bind, Option.bind_eq_some] at h
    obtain ⟨⟨a, r1⟩, ha, ⟨r2, _, ⟨⟨b, r3⟩, _, ⟨r4, _, ⟨⟨c, r5⟩, hc, h⟩⟩⟩⟩⟩ := h
    split at h
    · cases h
      exact ⟨take2DV_le ha, take2DV_le hc⟩
    · exact absurd h (by simp)
  · exact absurd h (by simp)

theorem matchT3_bounds (prev : Option Char) (l : List Char)
    {t : Nat × Nat × Nat} (h : matchT3 prev l = some t) :
    t.1 ≤ 99 ∧ t.2.2 ≤ 99 := by
  unfold matchT3 at h
  split at h
  · simp only [bind, Option.bind_eq_some] at h
    obtain ⟨⟨a, r1⟩, ha, ⟨⟨b, r2⟩, _, ⟨⟨c, r3⟩, hc, h⟩⟩⟩ := h
    split at h
    · cases h
      exact ⟨take2DV_le ha, take2DV_le hc⟩
    · exact absurd h (by simp)
  · exact absurd h (by simp)

theorem findSixAux_bounds (l : List Char) :
    ∀ (skip : Nat) (t : Nat × Nat × Nat), t ∈ findSixAux skip l →
      t.1 ≤ 99 ∧ t.2.2 ≤ 99 := by
  induction l with
  | nil =>
    intro skip t ht
    simp [findSixAux] at ht
  | cons x r ih =>
    intro skip t ht
    cases skip with
    | succ k =>
      rw [show findSixAux (k + 1) (x :: r) = findSixAux k r from rfl] at ht
      exact ih k t ht
    | zero =>
      rcases r with _ | ⟨b, _ | ⟨c, _ | ⟨d, _ | ⟨e, _ | ⟨f, rest⟩⟩⟩⟩⟩
      · simp [findSixAux] at ht
      · simp [findSixAux] at ht
      · simp [findSixAux] at ht
      · simp [findSixAux] at ht
      · simp [findSixAux] at ht
      · rw [show findSixAux 0 (x :: b :: c :: d :: e :: f :: rest)
            = (if isDigitC x && isDigitC b && isDigitC c && isDigitC d
                  && isDigitC e && isDigitC f then
                (twoVal x b, twoVal c d, twoVal e f)
                  :: findSixAux 5 (b :: c :: d :: e :: f :: rest)
              else findSixAux 0 (b :: c :: d :: e :: f :: rest)) from rfl] at ht
        split at ht
        · rename_i hdig
          simp only [Bool.and_eq_true] at hdig
          rcases List.mem_cons.mp ht with rfl | ht'
          · exact ⟨twoVal_le hdig.1.1.1.1.1 hdig.1.1.1.1.2,
              twoVal_le hdig.1.2 hdig.2⟩
          · exact ih 5 t ht'
        · exact ih 0 t ht

theorem tryPair_bounds {a b c : Nat} {d : String} (ha : a ≤ 99) (hc : c ≤ 99)
    (h : (tryDDMMYY a b c <|> tryYYMMDD a b c) = some d) :
    ∃ y mo dy, 2000 ≤ y ∧ y ≤ 2099 ∧ d = isoFormat y mo dy := by
  cases h1 : tryDDMMYY a b c with
  | some s =>
    rw [h1] at h
    simp only [Option.some_orElse] at h
    cases h
    unfold tryDDMMYY at h1
    rw [Option.map_eq_some'] at h1
    obtain ⟨t, hmk, rfl⟩ := h1
    obtain ⟨rfl, hb⟩ := mkValidDate_bounds hmk
    exact ⟨2000 + c, b, a, by omega, by omega, rfl⟩
  | none =>
    rw [h1] at h
    simp only [Option.none_orElse] at h
    unfold tryYYMMDD at h
    rw [Option.map_eq_some'] at h
    obtain ⟨t, hmk, rfl⟩ := h
    obtain ⟨rfl, hb⟩ := mkValidDate_bounds hmk
    exact ⟨2000 + a, b, c, by omega, by omega, rfl⟩

/-- C10: whenever the 8-digit (four-digit-year) filename pattern does not
resolve, every date the filename tiers produce comes from a two-digit-year
reading interpreted as `2000 + yy`, so it lies in the years 2000-2099; in
particular the digit run `991231` resolves as 2099-12-31, never 1999. -/
theorem c10_two_digit_years :
    (∀ fn d, fnTier1 (fnStem fn) = none →
      extract_date_from_filename fn = some d →
        ∃ y mo dy, 2000 ≤ y ∧ y ≤ 2099 ∧ d = isoFormat y mo dy)
    ∧ extract_date_from_filename "991231" = some "2099-12-31" := by
  refine ⟨?_, by decide⟩
  intro fn d h1 h2
  unfold extract_date_from_filename at h2
  rw [h1] at h2
  simp only [Option.none_orElse] at h2
  cases h2' : fnTier2 (fnStem fn) with
  | some d2 =>
    rw [h2'] at h2
    simp only [Option.some_orElse] at h2
    cases h2
    unfold fnTier2 at h2'
    rw [Option.bind_eq_some] at h2'
    obtain ⟨t, hsearch, htry⟩ := h2'
    have hb := searchFrom_pres matchT2 (fun p l a ha => matchT2_bounds p l ha)
      none (fnStem fn) t hsearch
    exact tryPair_bounds hb.1 hb.2 htry
  | none =>
    rw [h2'] at h2
    simp only [Option.none_orElse] at h2
    cases h3' : fnTier3 (fnStem fn) with
    | some d3 =>
      rw [h3'] at h2
      simp only [Option.some_orElse] at h2
      cases h2
      unfold fnTier3 at h3'
      rw [Option.bind_eq_some] at h3'
      obtain ⟨t, hsearch, htry⟩ := h3'
      have hb := searchFrom_pres matchT3 (fun p l a ha => matchT3_bounds p l ha)
        none (fnStem fn) t hsearch
      exact tryPair_bounds hb.1 hb.2 htry
    | none =>
      rw [h3'] at h2
      simp only [Option.none_orElse] at h2
      unfold fnTier4 at h2
      obtain ⟨t, hmem, htry⟩ := List.exists_of_findSome?_eq_some h2
      have hb := findSixAux_bounds (fnStem fn) 0 t hmem
      exact tryPair_bounds hb.1 hb.2 htry

/-- Witness for C10 at the filename `blood 10.11.12.pdf`, which resolves via
the separated two-digit tier as 2012-11-10. -/
theorem c10_two_digit_years_witness :
    fnTier1 (fnStem "blood 10.11.12.pdf") = none
    ∧ extract_date_from_filename "blood 10.11.12.pdf" = some "2012-11-10"
    ∧ ∃ y mo dy, 2000 ≤ y ∧ y ≤ 2099 ∧ ("2012-11-10" : String) = isoFormat y mo dy :=
  ⟨by decide, by decide,
   c10_two_digit_years.1 "blood 10.11.12.pdf" "2012-11-10" (by decide)
     (by decide)⟩

/-! ### Claim C5 -/

/-- The token shape of the captured name: `headOk`-led token, at least one
more token character, whitespace, second `headOk`-led token, end of string. -/
def nameShapeBy (headOk : Char → Bool) : List Char → Bool
  | [] => false
  | c :: r =>
    headOk c &&
      (!(r.takeWhile isNameTailC).isEmpty &&
        (!((r.dropWhile isNameTailC).takeWhile isSpaceC).isEmpty &&
          (match (r.dropWhile isNameTailC).dropWhile isSpaceC with
           | d :: r3 =>
             headOk d && (!(r3.takeWhile isNameTailC).isEmpty
               && (r3.dropWhile isNameTailC).isEmpty)
           | [] => false)))

/-- The shape claim C5 describes: each token starts with an *uppercase*
letter (written from the spec's words, to be compared with the code). -/
def specCapNamePair (s : String) : Bool := nameShapeBy isUpperC s.data

/-- The shape the code actually enforces: each token starts with a letter of
either case (the pattern is compiled with `re.IGNORECASE`). -/
def letterNamePair (s : String) : Bool := nameShapeBy isAlphaC s.data

/-- C5 counterexample: the extractor accepts an all-lowercase name, because
`[A-Za-z]` under `re.IGNORECASE` puts no case constraint on the tokens; the
claim's capitalized-token shape rejects the very string the code extracts. -/
theorem c5_counterexample :
    extract_name "Name: jane doe" = some "jane doe"
    ∧ specCapNamePair "jane doe" = false :=
  ⟨by decide, by decide⟩

/-! Character-class disjointness. -/

theorem isSpaceC_cases {x : Char} (h : isSpaceC x = true) :
    x = ' ' ∨ x = '\t' ∨ x = '\n' ∨ x = '\r' ∨ x = '\x0b' ∨ x = '\x0c' := by
  simp only [isSpaceC, Bool.or_eq_true, decide_eq_true_eq] at h
  tauto

theorem not_nameTail_of_space {x : Char} (h : isSpaceC x = true) :
    isNameTailC x = false := by
  rcases isSpaceC_cases h with rfl | rfl | rfl | rfl | rfl | rfl <;> decide

theorem not_space_of_alpha {x : Char} (h : isAlphaC x = true) :
    isSpaceC x = false := by
  by_contra hs
  rw [Bool.not_eq_false] at hs
  rcases isSpaceC_cases hs with rfl | rfl | rfl | rfl | rfl | rfl <;>
    exact absurd h (by decide)

theorem not_space_of_nameTail {x : Char} (h : isNameTailC x = true) :
    isSpaceC x = false := by
  by_contra hs
  rw [Bool.not_eq_false] at hs
  rw [not_nameTail_of_space hs] at h
  exact absurd h (by decide)

/-! takeWhile / dropWhile splitting. -/

theorem takeWhile_append_stop {p : Char → Bool} {xs : List Char} {y : Char}
    (ys : List Char) (hxs : ∀ x ∈ xs, p x = true) (hy : p y = false) :
    (xs ++ y :: ys).takeWhile p = xs
    ∧ (xs ++ y :: ys).dropWhile p = y :: ys := by
  induction xs with
  | nil => simp [List.takeWhile_cons, List.dropWhile_cons, hy]
  | cons a r ih =>
    have ha : p a = true := hxs a (List.mem_cons_self a r)
    have ihr := ih fun x hx => hxs x (List.mem_cons_of_mem a hx)
    simp [List.takeWhile_cons, List.dropWhile_cons, ha, ihr.1, ihr.2]

theorem takeWhile_all_eq {p : Char → Bool} {xs : List Char}
    (h : ∀ x ∈ xs, p x = true) :
    xs.takeWhile p = xs ∧ xs.dropWhile p = [] := by
  induction xs with
  | nil => simp
  | cons a r ih =>
    have ha : p a = true := h a (List.mem_cons_self a r)
    have ihr := ih fun x hx => h x (List.mem_cons_of_mem a hx)
    simp [List.takeWhile_cons, List.dropWhile_cons, ha, ihr.1, ihr.2]

theorem getLast?_append_cons {α : Type} (xs : List α) (d : α) (t : List α) :
    (xs ++ d :: t).getLast? = (d :: t).getLast? := by
  induction xs with
  | nil => rfl
  | cons a r ih =>
    rw [List.cons_append, List.getLast?_cons, ih]
    cases r <;> cases t <;> simp_all [List.getLast?_cons]

theorem getLast?_all {q : Char → Bool} (d : Char) (t : List Char)
    (hall : ∀ x ∈ d :: t, q x = true) :
    ∃ z, (d :: t).getLast? = some z ∧ q z = true := by
  induction t generalizing d with
  | nil => exact ⟨d, rfl, hall d (List.mem_cons_self d [])⟩
  | cons b t' ih =>
    obtain ⟨z, hz, hq⟩ := ih b fun x hx => hall x (List.mem_cons_of_mem d hx)
    refine ⟨z, ?_, hq⟩
    rw [List.getLast?_cons]
    cases t' <;> simp_all [List.getLast?_cons]

theorem dropWhile_cons_false {p : Char → Bool} {a : Char} (l : List Char)
    (h : p a = false) : (a :: l).dropWhile p = a :: l := by
  simp [List.dropWhile_cons, h]

theorem pyStripList_id {l : List Char}
    (h1 : ∀ c, l.head? = some c → isSpaceC c = false)
    (h2 : ∀ c, l.getLast? = some c → isSpaceC c = false) :
    pyStripList l = l := by
  cases l with
  | nil => rfl
  | cons c r =>
    have hc := h1 c rfl
    unfold pyStripList
    rw [dropWhile_cons_false r hc]
    cases hrev : (c :: r).reverse with
    | nil => simp at hrev
    | cons z w =>
      have hz : (c :: r).getLast? = some z := by
        rw [← List.head?_reverse, hrev]
        rfl
      have hzs := h2 z hz
      rw [dropWhile_cons_false w hzs, ← hrev, List.reverse_reverse]

theorem alpha_nameTail {x : Char} (h : isAlphaC x = true) :
    isNameTailC x = true := by
  simp [isNameTailC, h]

theorem takeNameTok_some {l tk r : List Char}
    (h : takeNameTok l = some (tk, r)) :
    ∃ c t, tk = c :: t ∧ isAlphaC c = true ∧ t ≠ []
      ∧ ∀ x ∈ t, isNameTailC x = true := by
  match l with
  | [] => simp [takeNameTok] at h
  | c :: rest =>
    simp only [takeNameTok] at h
    split at h
    · rename_i hca
      unfold takeRun at h
      cases htw : rest.takeWhile isNameTailC with
      | nil =>
        rw [htw] at h
        simp at h
      | cons a t1 =>
        rw [htw] at h
        simp only [Option.some.injEq, Prod.mk.injEq] at h
        refine ⟨c, a :: t1, h.1.symm, hca, by simp, ?_⟩
        intro x hx
        rw [← htw] at hx
        exact List.mem_takeWhile_imp hx
    · exact absurd h (by simp)

theorem takeWs1_some {l w r : List Char} (h : takeWs1 l = some (w, r)) :
    w ≠ [] ∧ ∀ x ∈ w, isSpaceC x = true := by
  unfold takeWs1 takeRun at h
  cases htw : l.takeWhile isSpaceC with
  | nil =>
    rw [htw] at h
    simp at h
  | cons a t1 =>
    rw [htw] at h
    simp only [Option.some.injEq, Prod.mk.injEq] at h
    refine ⟨by rw [← h.1]; simp, ?_⟩
    intro x hx
    rw [← h.1, ← htw] at hx
    exact List.mem_takeWhile_imp hx

/-- What a successful `matchNameCore` capture looks like. -/
def NameShapeP (g : List Char) : Prop :=
  ∃ c t1 w0 ws d t2, g = ((c :: t1) ++ (w0 :: ws)) ++ (d :: t2)
    ∧ isAlphaC c = true ∧ (∀ x ∈ t1, isNameTailC x = true) ∧ t1 ≠ []
    ∧ isSpaceC w0 = true ∧ (∀ x ∈ ws, isSpaceC x = true)
    ∧ isAlphaC d = true ∧ t2 ≠ [] ∧ (∀ x ∈ t2, isNameTailC x = true)

theorem matchNameCore_shape {l g : List Char} (h : matchNameCore l = some g) :
    NameShapeP g := by
  simp only [matchNameCore, bind, Option.bind_eq_some] at h
  obtain ⟨⟨tk1, r1⟩, h1, ⟨⟨wf, r2⟩, h2, ⟨⟨tk2, r3⟩, h3, hg⟩⟩⟩ := h
  simp only [Option.some.injEq] at hg
  obtain ⟨c, t1, rfl, hca, ht1ne, ht1⟩ := takeNameTok_some h1
  obtain ⟨hwne, hws⟩ := takeWs1_some h2
  obtain ⟨d, t2, rfl, hda, ht2ne, ht2⟩ := takeNameTok_some h3
  cases wf with
  | nil => exact absurd rfl hwne
  | cons w0 ws =>
    refine ⟨c, t1, w0, ws, d, t2, hg.symm, hca, ht1, ht1ne,
      hws w0 (List.mem_cons_self w0 ws), ?_, hda, ht2ne, ht2⟩
    intro x hx
    exact hws x (List.mem_cons_of_mem w0 hx)

theorem matchNameAt_shape (prev : Option Char) (l : List Char)
    {g : List Char} (h : matchNameAt prev l = some g) : NameShapeP g := by
  unfold matchNameAt tryAlts at h
  obtain ⟨lab, hmem, hb⟩ := List.exists_of_findSome?_eq_some h
  rw [Option.bind_eq_some] at hb
  obtain ⟨rest, _, hcore⟩ := hb
  exact matchNameCore_shape hcore

/-- C5 (amended): every name the extractor returns is a two-token name, each
token a *letter of either case* followed by at least one more letter,
apostrophe or hyphen, the tokens separated by whitespace; the first match
wins and no match yields an absent field (the extractor is total). -/
theorem c5_extracted_name_shape (text n : String)
    (h : extract_name text = some n) : letterNamePair n = true := by
  unfold extract_name at h
  rw [Option.map_eq_some'] at h
  obtain ⟨g, hsearch, rfl⟩ := h
  have hshape : NameShapeP g :=
    searchFrom_pres matchNameAt (fun p l a ha => matchNameAt_shape p l ha)
      none text.data g hsearch
  obtain ⟨c, t1, w0, ws, d, t2, rfl, hca, ht1, ht1ne, hw0, hws, hda, ht2ne,
    ht2⟩ := hshape
  have hallt2 : ∀ x ∈ d :: t2, isNameTailC x = true := by
    intro x hx
    rcases List.mem_cons.mp hx with rfl | hx'
    · exact alpha_nameTail hda
    · exact ht2 x hx'
  have hid : pyStripList (((c :: t1) ++ (w0 :: ws)) ++ (d :: t2))
      = ((c :: t1) ++ (w0 :: ws)) ++ (d :: t2) := by
    apply pyStripList_id
    · intro x hx
      simp only [List.cons_append, List.head?_cons, Option.some.injEq] at hx
      rw [← hx]
      exact not_space_of_alpha hca
    · intro x hx
      rw [getLast?_append_cons] at hx
      obtain ⟨z, hz, hq⟩ := getLast?_all d t2 hallt2
      rw [hz] at hx
      cases hx
      exact not_space_of_nameTail hq
  show nameShapeBy isAlphaC
    (pyStripList (((c :: t1) ++ (w0 :: ws)) ++ (d :: t2))) = true
  rw [hid]
  have hform : ((c :: t1) ++ (w0 :: ws)) ++ (d :: t2)
      = c :: (t1 ++ w0 :: (ws ++ d :: t2)) := by
    simp [List.append_assoc]
  rw [hform]
  have e1 := takeWhile_append_stop (ws ++ d :: t2) ht1
    (not_nameTail_of_space hw0)
  have hallw : ∀ x ∈ w0 :: ws, isSpaceC x = true := by
    intro x hx
    rcases List.mem_cons.mp hx with rfl | hx'
    · exact hw0
    · exact hws x hx'
  have e2 := @takeWhile_append_stop isSpaceC (w0 :: ws) d t2 hallw
    (not_space_of_alpha hda)
  have e3 := takeWhile_all_eq ht2
  rcases t1 with _ | ⟨a1, t1x⟩
  · exact absurd rfl ht1ne
  rcases t2 with _ | ⟨a2, t2x⟩
  · exact absurd rfl ht2ne
  simp only [nameShapeBy, hca, Bool.true_and]
  rw [e1.1, e1.2]
  simp only [List.cons_append] at e2
  rw [e2.1, e2.2]
  simp [hda, e3.1, e3.2]

/-- Witness for C5 (amended) at a labelled mixed-case name. -/
theorem c5_extracted_name_shape_witness :
    extract_name "Patient Name: John Smith" = some "John Smith"
    ∧ letterNamePair "John Smith" = true :=
  ⟨by decide,
   c5_extracted_name_shape "Patient Name: John Smith" "John Smith" (by decide)⟩
